import Mathlib

/-
Shallow embedding of the QR-bill core of the invoice-chain-ai repository:
the Swiss QR payload grammar parser and address sub-grammar
(src/invoice_chain_ai/qr.py, parse_address / parse_swiss_qr), the scan
orchestrator's per-candidate decode handling and terminal branches
(src/invoice_chain_ai/qr.py, scan_qr_code), the Phase-1 candidate
enumeration, and the heuristic IBAN acceptance rule
(src/invoice_chain_ai/io_utils.py, find_iban_in_markdown).

Machine strings are modelled as Lean String (a packed List Char); the
Python string operations used by the source (strip, split("\n"),
startswith, re.sub character filtering, upper, isdigit on ASCII data)
are given explicit, executable definitions below.
-/

deriving instance DecidableEq for Except

/-- Whitespace stripped by Python str.strip on ASCII data:
space, tab, newline, carriage return, vertical tab, form feed. -/
def isPyWS (c : Char) : Bool :=
  c = ' ' || c = '\t' || c = '\n' || c = '\r' || c = '\x0b' || c = '\x0c'

/-- Drop leading whitespace (Python str.lstrip). -/
def stripL (l : List Char) : List Char := l.dropWhile isPyWS

/-- Drop trailing whitespace (Python str.rstrip). -/
def stripR (l : List Char) : List Char := (l.reverse.dropWhile isPyWS).reverse

/-- Python str.strip: drop whitespace at both ends. -/
def pyStrip (l : List Char) : List Char := stripL (stripR l)

/-- Python s.split("\n") on a character list: cut at every newline,
never collapsing or dropping segments ("".split("\n") == [""]). -/
def splitNl : List Char → List (List Char)
  | [] => [[]]
  | c :: cs =>
    if c = '\n' then [] :: splitNl cs
    else
      match splitNl cs with
      | [] => [[c]]
      | h :: t => (c :: h) :: t

/-- Python s.startswith(p). -/
def pyStartsWith (s p : String) : Bool := p.data.isPrefixOf s.data

/-- A split line, stripped (qr.py line 170: line.strip()). -/
def stripStr (l : List Char) : String := ⟨pyStrip l⟩

/-- qr.py parse_swiss_qr lines 168-174: split the stripped payload on
newlines, strip every line, and right-pad with empty strings until at
least 35 fields exist. -/
def mkFields (qr_text : String) : List String :=
  let fields := (splitNl (pyStrip qr_text.data)).map stripStr
  fields ++ List.replicate (35 - fields.length) ""

/-- qr.py SwissQRAddress dataclass. -/
structure SwissQRAddress where
  address_type : String
  name : String
  address_line_1 : String := ""
  address_line_2 : String := ""
  postal_code : String := ""
  city : String := ""
  country : String := ""
deriving DecidableEq

/-- qr.py SwissQRInvoice dataclass. -/
structure SwissQRInvoice where
  qr_type : String
  version : String
  coding_type : String
  iban : String
  creditor : Option SwissQRAddress
  ultimate_creditor : Option SwissQRAddress := none
  amount : Option String := none
  currency : String := "CHF"
  ultimate_debtor : Option SwissQRAddress := none
  reference_type : String := ""
  reference : String := ""
  unstructured_message : String := ""
  trailer : String := "EPD"
  alternative_scheme_1 : String := ""
  alternative_scheme_2 : String := ""
deriving DecidableEq

/-- qr.py parse_address (lines 107-159).  Python's guarded reads
`fields[i] if i < len(fields) else ""` are exactly `fields.getD i ""`. -/
def parse_address (fields : List String) (start_idx : Nat) :
    Option SwissQRAddress × Nat :=
  if start_idx ≥ fields.length then (none, start_idx)
  else
    let address_type := fields.getD start_idx ""
    if address_type = "" then (none, start_idx + 7)
    else
      let name := fields.getD (start_idx + 1) ""
      if address_type = "S" then
        (some { address_type := address_type, name := name
                address_line_1 := fields.getD (start_idx + 2) ""
                address_line_2 := fields.getD (start_idx + 3) ""
                postal_code := fields.getD (start_idx + 4) ""
                city := fields.getD (start_idx + 5) ""
                country := fields.getD (start_idx + 6) "" },
         start_idx + 7)
      else if address_type = "K" then
        -- For combined addresses, fields 4-6 of the window are not read;
        -- postal_code and city keep their dataclass defaults "".
        (some { address_type := address_type, name := name
                address_line_1 := fields.getD (start_idx + 2) ""
                address_line_2 := fields.getD (start_idx + 3) ""
                country := fields.getD (start_idx + 6) "" },
         start_idx + 7)
      else (none, start_idx + 7)

/-- Body of the try-block of qr.py parse_swiss_qr (lines 176-228), reading
the padded field list.  The unguarded Python reads (fields[0..3],
fields[18], fields[19]) are in bounds because the padding step guarantees
at least 35 fields, so `fields.getD i ""` agrees with Python indexing
there; the reads at 27-32 carry their explicit length guards from the
source. -/
def parseFields (fields : List String) : SwissQRInvoice :=
  { qr_type := fields.getD 0 ""
    version := fields.getD 1 ""
    coding_type := fields.getD 2 ""
    iban := fields.getD 3 ""
    creditor := (parse_address fields 4).1
    ultimate_creditor := (parse_address fields 11).1
    amount := if fields.getD 18 "" = "" then none else some (fields.getD 18 "")
    currency := if fields.getD 19 "" = "" then "CHF" else fields.getD 19 ""
    ultimate_debtor := (parse_address fields 20).1
    reference_type := if 27 < fields.length then fields.getD 27 "" else ""
    reference := if 28 < fields.length then fields.getD 28 "" else ""
    unstructured_message := if 29 < fields.length then fields.getD 29 "" else ""
    trailer := if 30 < fields.length then fields.getD 30 "" else "EPD"
    alternative_scheme_1 := if 31 < fields.length then fields.getD 31 "" else ""
    alternative_scheme_2 := if 32 < fields.length then fields.getD 32 "" else "" }

/-- qr.py parse_swiss_qr (lines 163-231).  The ValueError raised on an
empty or non-"SPC" payload is the `Except.error` case; the try-block
never raises (all fixed-offset reads are in bounds after padding), so
every "SPC"-prefixed payload yields a record. -/
def parse_swiss_qr (qr_text : String) : Except String SwissQRInvoice :=
  if qr_text = "" ∨ pyStartsWith qr_text "SPC" = false then
    .error "Invalid Swiss QR Code format"
  else
    .ok (parseFields (mkFields qr_text))

/-- io_utils.py find_iban_in_markdown line 61: normalize a regex match by
removing all non-alphanumeric (ASCII) characters and uppercasing. -/
def cleanToken (m : String) : String :=
  ⟨(m.data.filter Char.isAlphanum).map Char.toUpper⟩

/-- Python clean[2:4].isdigit(): the (at most two-character) slice after
"CH" is nonempty and all digits. -/
def digitsAt23 (clean : String) : Bool :=
  let sub := (clean.data.drop 2).take 2
  !sub.isEmpty && sub.all Char.isDigit

/-- io_utils.py find_iban_in_markdown lines 61-71: the acceptance test
applied to each regex match, on its cleaned form.  The source first
skips tokens not starting with "CH", then returns the token when it has
exactly 21 characters with digits in positions 2-3, and otherwise when
it has length 19-25 with digits in positions 2-3. -/
def acceptIbanCandidate (m : String) : Bool :=
  let clean := cleanToken m
  if pyStartsWith clean "CH" = false then false
  else if decide (clean.length = 21) && digitsAt23 clean then true
  else if decide (19 ≤ clean.length) && decide (clean.length ≤ 25) && digitsAt23 clean then true
  else false

/-- Modelled from the spec claim C9 (refinement comparison definition):
the overall acceptance predicate is "cleaned token starts with CH, has
length between 19 and 25 inclusive, and its third and fourth characters
are digits". -/
def acceptIbanSpec (m : String) : Bool :=
  let clean := cleanToken m
  pyStartsWith clean "CH" && decide (19 ≤ clean.length) &&
    decide (clean.length ≤ 25) && digitsAt23 clean

/-- Which decoder of the chain produced a text (qr.py found_method). -/
inductive Method
  | WeChat
  | OpenCV
deriving DecidableEq

/-- Content of one JSON artifact written by scan_qr_code:
{stem}_qr.json with raw text and the optional parsed invoice,
{stem}_qr_error.json with {"error": "No QR code found"}, or
{stem}_qr_fallback.json with the heuristic IBAN and minimal stub. -/
inductive ArtifactContent
  | qrJson (raw_qr_text : String) (parsed_invoice : Option SwissQRInvoice)
  | errorNoQr
  | fallbackJson (heuristic_iban : String)
deriving DecidableEq

/-- One file written by scan_qr_code: name (relative to output_dir) and
serialized content. -/
structure Artifact where
  name : String
  content : ArtifactContent
deriving DecidableEq

/-- Return value of scan_qr_code: the success dict (qr_text, method,
invoice, output_file), the {"error": ..., "output_file": ...} dict, or
the heuristic fallback dict (qr_text None, method "heuristic"). -/
inductive ScanResult
  | found (qr_text : String) (method : Method) (invoice : Option SwissQRInvoice)
      (output_file : String)
  | noCode (output_file : String)
  | heuristicFound (iban : String) (output_file : String)
deriving DecidableEq

/-- Per-candidate decoder chain of scan_qr_code (lines 327-333 and the
identical Phase-2 copies): try _wechat_decode, and only when its result
is falsy (None or "") try _opencv_decode; record which decoder hit. -/
def decodeChain (wres ores : Option String) : Option (String × Method) :=
  match wres with
  | some t =>
    if t = "" then
      match ores with
      | some u => if u = "" then none else some (u, .OpenCV)
      | none => none
    else some (t, .WeChat)
  | none =>
    match ores with
    | some u => if u = "" then none else some (u, .OpenCV)
    | none => none

/-- qr.py scan_qr_code lines 334-353 (and the identical Phase-2 copies),
parameterized over the grammar parser called at line 341: once a decoded
text passing the "SPC" check is in hand, write {stem}_qr.json containing
the raw text plus, when parsing succeeds, the parsed invoice (the parse
exception is caught at lines 343-344 and only logged), and return the
success dict.  The function returns in both cases; it never falls
through to the next candidate. -/
def handleSpcText (parse : String → Except String SwissQRInvoice)
    (stem qr_text : String) (method : Method) : ScanResult × Artifact :=
  let parsed : Option SwissQRInvoice :=
    match parse qr_text with
    | .ok inv => some inv
    | .error _ => none
  let out_path := stem ++ "_qr.json"
  (.found qr_text method parsed out_path, ⟨out_path, .qrJson qr_text parsed⟩)

/-- The candidate loop of scan_qr_code, parameterized over the grammar
parser.  Each candidate is the pair of decoder-oracle outcomes
(_wechat_decode result, _opencv_decode result) for its preprocessed
image; a candidate whose rendering or preprocessing raises is skipped by
the per-candidate try/except and is modelled as (none, none).  The loop
returns the first success dict together with the artifact it wrote, or
none when every candidate is exhausted. -/
def scanLoopP (parse : String → Except String SwissQRInvoice) (stem : String) :
    List (Option String × Option String) → Option (ScanResult × Artifact)
  | [] => none
  | (w, o) :: rest =>
    match decodeChain w o with
    | some (t, m) =>
      if pyStartsWith t "SPC" then some (handleSpcText parse stem t m)
      else scanLoopP parse stem rest
    | none => scanLoopP parse stem rest

/-- qr.py scan_qr_code (lines 309-483), parameterized over the grammar
parser and abstracted over I/O: the Phase-1 and Phase-2 candidates are
one list of decoder-oracle outcome pairs, and the heuristic
find_iban_in_markdown call is the oracle heuristicIban (none also covers
the exception swallowed at lines 450-451).  Returns the result dict and
the list of artifacts written, in write order.  Mirrors the source: on
loop exhaustion the error artifact is written first (lines 440-443), and
only then, when use_heuristic is set and the heuristic hits, the
fallback artifact is additionally written (lines 446-478). -/
def scanQrCodeP (parse : String → Except String SwissQRInvoice) (stem : String)
    (cands : List (Option String × Option String)) (use_heuristic : Bool)
    (heuristicIban : Option String) : ScanResult × List Artifact :=
  match scanLoopP parse stem cands with
  | some (res, art) => (res, [art])
  | none =>
    let err_path := stem ++ "_qr_error.json"
    let errArt : Artifact := ⟨err_path, .errorNoQr⟩
    if use_heuristic then
      match heuristicIban with
      | some iban =>
        let fb_path := stem ++ "_qr_fallback.json"
        (.heuristicFound iban fb_path, [errArt, ⟨fb_path, .fallbackJson iban⟩])
      | none => (.noCode err_path, [errArt])
    else (.noCode err_path, [errArt])

/-- qr.py scan_qr_code with the parser it actually calls. -/
def scan_qr_code (stem : String) (cands : List (Option String × Option String))
    (use_heuristic : Bool) (heuristicIban : Option String) :
    ScanResult × List Artifact :=
  scanQrCodeP parse_swiss_qr stem cands use_heuristic heuristicIban

/-- Zoom levels tried by both phases, in source order (qr.py line 319). -/
def phase1Zooms : List ℚ := [4, 6, 8]

/-- Phase-1 candidate enumeration of scan_qr_code (lines 316-319):
pages in descending index order (range(page_count-1, -1, -1)), and for
each page the zoom levels in ascending order. -/
def phase1Candidates (page_count : Nat) : List (Nat × ℚ) :=
  (List.range page_count).reverse.flatMap fun p => phase1Zooms.map fun z => (p, z)

/-- The crop box used by Phase 1 (qr.py line 325):
page_img.crop((0, h // 2, w, h)) as (left, top, right, bottom). -/
def cropBoxLowerHalf (w h : Nat) : Nat × Nat × Nat × Nat := (0, h / 2, w, h)

/-- Size (width, height) of the image produced by a PIL crop box. -/
def cropSize (box : Nat × Nat × Nat × Nat) : Nat × Nat :=
  (box.2.2.1 - box.1, box.2.2.2 - box.2.1)

/-- A grammar parser that always fails, used to exercise the
parse-failure handling of the orchestrator (qr.py lines 343-344), a
branch the shipped parser never takes on "SPC"-prefixed text. -/
def alwaysFailParse : String → Except String SwissQRInvoice :=
  fun _ => .error "Failed to parse Swiss QR Code"

/-- A concrete field sequence whose creditor address window (fields 4-10)
is entirely empty and whose amount field (18) is populated. -/
def c8ExampleFields : List String :=
  ["SPC", "0200", "1", "CH44", "", "", "", "", "", "", "",
   "", "", "", "", "", "", "", "42.00"]

/-- A string with no leading and no trailing Python whitespace. -/
def NoEdgeWS (s : String) : Prop :=
  (∀ c ∈ s.data.head?, isPyWS c = false) ∧ (∀ c ∈ s.data.getLast?, isPyWS c = false)

/-- All string fields of an address are free of edge whitespace. -/
def AddrTrimmed (a : SwissQRAddress) : Prop :=
  NoEdgeWS a.address_type ∧ NoEdgeWS a.name ∧ NoEdgeWS a.address_line_1 ∧
  NoEdgeWS a.address_line_2 ∧ NoEdgeWS a.postal_code ∧ NoEdgeWS a.city ∧
  NoEdgeWS a.country

/-- All string fields of an invoice record are free of edge whitespace. -/
def InvTrimmed (inv : SwissQRInvoice) : Prop :=
  NoEdgeWS inv.qr_type ∧ NoEdgeWS inv.version ∧ NoEdgeWS inv.coding_type ∧
  NoEdgeWS inv.iban ∧ (∀ a ∈ inv.creditor, AddrTrimmed a) ∧
  (∀ a ∈ inv.ultimate_creditor, AddrTrimmed a) ∧
  (∀ s ∈ inv.amount, NoEdgeWS s) ∧ NoEdgeWS inv.currency ∧
  (∀ a ∈ inv.ultimate_debtor, AddrTrimmed a) ∧ NoEdgeWS inv.reference_type ∧
  NoEdgeWS inv.reference ∧ NoEdgeWS inv.unstructured_message ∧
  NoEdgeWS inv.trailer ∧ NoEdgeWS inv.alternative_scheme_1 ∧
  NoEdgeWS inv.alternative_scheme_2

/-- Join lines with a separator, as Python sep.join(lines). -/
def joinSep (sep : List Char) : List (List Char) → List Char
  | [] => []
  | [d] => d
  | d :: ds => d ++ sep ++ joinSep sep ds

/-- A payload assembled from lines with LF line endings. -/
def joinLF (lines : List String) : String :=
  ⟨joinSep ['\n'] (lines.map String.data)⟩

/-- The same payload with CRLF line endings. -/
def joinCRLF (lines : List String) : String :=
  ⟨joinSep ['\r', '\n'] (lines.map String.data)⟩

/-- Append a carriage return to every line except the last. -/
def crAug : List (List Char) → List (List Char)
  | [] => []
  | [d] => [d]
  | d :: ds => (d ++ ['\r']) :: crAug ds

/-! Helper lemmas shared by the claim theorems. -/

theorem mkFields_length (q : String) : 35 ≤ (mkFields q).length := by
  unfold mkFields
  simp only [List.length_append, List.length_replicate]
  omega

theorem pyStartsWith_SPC_ne_empty {t : String} (h : pyStartsWith t "SPC" = true) :
    t ≠ "" := by
  intro hq
  subst hq
  exact absurd h (by decide)

theorem parse_swiss_qr_ok_of_SPC {q : String} (h : pyStartsWith q "SPC" = true) :
    parse_swiss_qr q = .ok (parseFields (mkFields q)) := by
  unfold parse_swiss_qr
  rw [if_neg]
  rintro (rfl | hf)
  · exact absurd h (by decide)
  · rw [hf] at h
    cases h

/-- C4: parse_swiss_qr fails with InvalidPayloadFormat exactly when the
input is empty or does not start with "SPC"; every "SPC"-prefixed input,
however few newline-separated fields it has, is padded to at least 35
fields (so all fixed-offset reads are in bounds) and a record is
returned. -/
theorem c4_parse_error_iff (q : String) :
    ((parse_swiss_qr q).isOk = true ↔ pyStartsWith q "SPC" = true) ∧
    ((parse_swiss_qr q).isOk = false ↔ (q = "" ∨ pyStartsWith q "SPC" = false)) ∧
    35 ≤ (mkFields q).length := by
  have key : (parse_swiss_qr q).isOk = true ↔ pyStartsWith q "SPC" = true := by
    constructor
    · intro hok
      cases hsw : pyStartsWith q "SPC" with
      | true => rfl
      | false =>
        rw [parse_swiss_qr, if_pos (Or.inr hsw)] at hok
        exact absurd hok (by simp [Except.isOk, Except.toBool])
    · intro hsw
      rw [parse_swiss_qr_ok_of_SPC hsw]
      rfl
  refine ⟨key, ?_, mkFields_length q⟩
  constructor
  · intro hno
    cases hsw : pyStartsWith q "SPC" with
    | true => rw [key.mpr hsw] at hno; cases hno
    | false => exact Or.inr rfl
  · intro h
    cases hok : (parse_swiss_qr q).isOk with
    | false => rfl
    | true =>
      have hsw := key.mp hok
      rcases h with rfl | hf
      · exact absurd hsw (by decide)
      · rw [hf] at hsw; cases hsw

/-- C3 (counterexample): on the payload "SPC" field 30 is empty, yet the
parsed trailer is the empty string, not the claimed default "EPD" — the
source guards the trailer read on field count, which padding always
satisfies, so the "EPD" default is unreachable. -/
theorem c3_counterexample :
    (mkFields "SPC").getD 30 "" = "" ∧
    (parse_swiss_qr "SPC").map SwissQRInvoice.trailer = .ok "" ∧
    (parse_swiss_qr "SPC").map SwissQRInvoice.trailer ≠ .ok "EPD" := by decide

/-- C3 (amended): the scalar fields are read at fixed offsets; field 18
empty yields amount none, field 19 empty yields the default currency
"CHF", but the trailer is read verbatim from field 30 (an empty field 30
yields an empty trailer; the "EPD" default would apply only with fewer
than 31 fields, which the padding step makes impossible). -/
theorem c3_amended (q : String) (inv : SwissQRInvoice)
    (h : parse_swiss_qr q = .ok inv) :
    (inv.amount =
      if (mkFields q).getD 18 "" = "" then none
      else some ((mkFields q).getD 18 "")) ∧
    (inv.currency =
      if (mkFields q).getD 19 "" = "" then "CHF"
      else (mkFields q).getD 19 "") ∧
    inv.trailer = (mkFields q).getD 30 "" := by
  have hinv : inv = parseFields (mkFields q) := by
    unfold parse_swiss_qr at h
    split at h
    · cases h
    · exact (Except.ok.inj h).symm
  subst hinv
  have h30 : 30 < (mkFields q).length :=
    lt_of_lt_of_le (by norm_num) (mkFields_length q)
  refine ⟨rfl, rfl, ?_⟩
  show (if 30 < (mkFields q).length then (mkFields q).getD 30 "" else "EPD") = _
  rw [if_pos h30]

theorem c3_witness :
    ((parseFields (mkFields "SPC")).amount =
      if (mkFields "SPC").getD 18 "" = "" then none
      else some ((mkFields "SPC").getD 18 "")) ∧
    ((parseFields (mkFields "SPC")).currency =
      if (mkFields "SPC").getD 19 "" = "" then "CHF"
      else (mkFields "SPC").getD 19 "") ∧
    (parseFields (mkFields "SPC")).trailer = (mkFields "SPC").getD 30 "" :=
  c3_amended "SPC" (parseFields (mkFields "SPC")) (by decide)

/-- C5: Phase 1 visits pages in descending order, and within each page
the zooms 4.0, 6.0, 8.0 in ascending order (for a 3-page document the
candidates are exactly pages [2,1,0] with zooms [4,6,8] nested inside),
and the examined region is the bottom half of the rendered page: full
width, and height h - h/2 (exactly half for even heights). -/
theorem c5_phase1_order :
    phase1Candidates 3 =
      [(2, 4), (2, 6), (2, 8), (1, 4), (1, 6), (1, 8), (0, 4), (0, 6), (0, 8)] ∧
    (∀ w h : Nat, cropSize (cropBoxLowerHalf w h) = (w, h - h / 2)) ∧
    (∀ w k : Nat, cropSize (cropBoxLowerHalf w (2 * k)) = (w, k)) := by
  refine ⟨by decide, ?_, ?_⟩
  · intro w h
    simp [cropSize, cropBoxLowerHalf]
  · intro w k
    simp [cropSize, cropBoxLowerHalf]
    omega

/-- C7: a 7-field address window tagged "K" parses to an address whose
postal_code and city are empty regardless of the contents of raw window
fields 4 and 5; only the name, the two address lines, and the country
(window field 6) are read. -/
theorem c7_combined_address (fields : List String) (start : Nat)
    (hlt : start < fields.length) (hK : fields.getD start "" = "K") :
    ∃ a : SwissQRAddress, (parse_address fields start).1 = some a ∧
      a.postal_code = "" ∧ a.city = "" ∧ a.address_type = "K" ∧
      a.name = fields.getD (start + 1) "" ∧
      a.address_line_1 = fields.getD (start + 2) "" ∧
      a.address_line_2 = fields.getD (start + 3) "" ∧
      a.country = fields.getD (start + 6) "" := by
  unfold parse_address
  rw [if_neg (by omega)]
  simp only [hK]
  rw [if_neg (show ¬("K" : String) = "" by decide),
    if_neg (show ¬("K" : String) = "S" by decide), if_pos trivial]
  exact ⟨_, rfl, rfl, rfl, rfl, rfl, rfl, rfl, rfl⟩

theorem c7_witness :
    ∃ a : SwissQRAddress,
      (parse_address ["K", "Muster AG", "Line1", "Line2", "GARBAGE1", "GARBAGE2", "CH"] 0).1 =
        some a ∧
      a.postal_code = "" ∧ a.city = "" ∧ a.address_type = "K" ∧
      a.name = (["K", "Muster AG", "Line1", "Line2", "GARBAGE1", "GARBAGE2", "CH"] : List String).getD (0 + 1) "" ∧
      a.address_line_1 = (["K", "Muster AG", "Line1", "Line2", "GARBAGE1", "GARBAGE2", "CH"] : List String).getD (0 + 2) "" ∧
      a.address_line_2 = (["K", "Muster AG", "Line1", "Line2", "GARBAGE1", "GARBAGE2", "CH"] : List String).getD (0 + 3) "" ∧
      a.country = (["K", "Muster AG", "Line1", "Line2", "GARBAGE1", "GARBAGE2", "CH"] : List String).getD (0 + 6) "" :=
  c7_combined_address ["K", "Muster AG", "Line1", "Line2", "GARBAGE1", "GARBAGE2", "CH"] 0
    (by decide) (by decide)

/-- C8: an address window whose type tag is empty (with the start index
in bounds) yields no address and a cursor advanced by exactly 7 fields;
and an all-empty creditor address block (fields 4-10) leaves the later
scalar reads untouched: the amount is still read from field 18. -/
theorem c8_empty_address_skip :
    (∀ (fields : List String) (start : Nat), start < fields.length →
        fields.getD start "" = "" → parse_address fields start = (none, start + 7)) ∧
    (∀ fields : List String, (∀ i, 4 ≤ i → i ≤ 10 → fields.getD i "" = "") →
        (parse_address fields 4).1 = none ∧
        (parseFields fields).amount =
          (if fields.getD 18 "" = "" then none else some (fields.getD 18 ""))) := by
  have part1 : ∀ (fields : List String) (start : Nat), start < fields.length →
      fields.getD start "" = "" → parse_address fields start = (none, start + 7) := by
    intro fields start hlt he
    unfold parse_address
    rw [if_neg (by omega)]
    simp only [he]
    rw [if_pos trivial]
  refine ⟨part1, ?_⟩
  intro fields hblock
  constructor
  · by_cases h4 : 4 < fields.length
    · rw [part1 fields 4 h4 (hblock 4 (by norm_num) (by norm_num))]
    · unfold parse_address
      rw [if_pos (by omega)]
  · rfl

theorem c8_witness :
    parse_address ["S", "", "x"] 1 = (none, 8) ∧
    ((parse_address c8ExampleFields 4).1 = none ∧
     (parseFields c8ExampleFields).amount =
       (if c8ExampleFields.getD 18 "" = "" then none
        else some (c8ExampleFields.getD 18 ""))) :=
  ⟨c8_empty_address_skip.1 ["S", "", "x"] 1 (by decide) (by decide),
   c8_empty_address_skip.2 c8ExampleFields
     (by intro i h1 h2; interval_cases i <;> decide)⟩

/-- C6: a regex match is accepted exactly when its cleaned form starts
with "CH", the two characters after "CH" are digits, and the length is
exactly 21 (primary rule) or between 19 and 25 (secondary rule); the
example "CH93 0076 2011 6238 5295 7" cleans to an accepted 21-character
token, and any match cleaning to 17 characters is rejected. -/
theorem c6_heuristic_acceptance :
    (∀ m : String, acceptIbanCandidate m = true ↔
      (pyStartsWith (cleanToken m) "CH" = true ∧ digitsAt23 (cleanToken m) = true ∧
        ((cleanToken m).length = 21 ∨
          (19 ≤ (cleanToken m).length ∧ (cleanToken m).length ≤ 25)))) ∧
    cleanToken "CH93 0076 2011 6238 5295 7" = "CH9300762011623852957" ∧
    (cleanToken "CH93 0076 2011 6238 5295 7").length = 21 ∧
    acceptIbanCandidate "CH93 0076 2011 6238 5295 7" = true ∧
    (∀ m : String, (cleanToken m).length = 17 → acceptIbanCandidate m = false) := by
  refine ⟨?_, by decide, by decide, by decide, ?_⟩
  · intro m
    constructor
    · intro hacc
      unfold acceptIbanCandidate at hacc
      by_cases h1 : pyStartsWith (cleanToken m) "CH" = false
      · rw [if_pos h1] at hacc
        cases hacc
      · rw [if_neg h1] at hacc
        have h1' : pyStartsWith (cleanToken m) "CH" = true := by
          cases hb : pyStartsWith (cleanToken m) "CH" with
          | false => exact absurd hb h1
          | true => rfl
        by_cases h2 : (decide ((cleanToken m).length = 21) && digitsAt23 (cleanToken m)) = true
        · simp only [Bool.and_eq_true, decide_eq_true_eq] at h2
          exact ⟨h1', h2.2, Or.inl h2.1⟩
        · rw [if_neg h2] at hacc
          by_cases h3 : (decide (19 ≤ (cleanToken m).length) &&
              decide ((cleanToken m).length ≤ 25) && digitsAt23 (cleanToken m)) = true
          · simp only [Bool.and_eq_true, decide_eq_true_eq] at h3
            exact ⟨h1', h3.2, Or.inr ⟨h3.1.1, h3.1.2⟩⟩
          · rw [if_neg h3] at hacc
            cases hacc
    · rintro ⟨hsw, hd, hlen⟩
      unfold acceptIbanCandidate
      rw [if_neg (by rw [hsw]; exact fun hc => by cases hc)]
      rcases hlen with h21 | ⟨h19, h25⟩
      · rw [if_pos (by simp [h21, hd])]
      · by_cases h2 : (decide ((cleanToken m).length = 21) && digitsAt23 (cleanToken m)) = true
        · rw [if_pos h2]
        · rw [if_neg h2, if_pos (by simp [h19, h25, hd])]
  · intro m hm
    unfold acceptIbanCandidate
    by_cases h1 : pyStartsWith (cleanToken m) "CH" = false
    · rw [if_pos h1]
    · rw [if_neg h1, if_neg (by simp [hm]), if_neg (by simp [hm])]

theorem c6_witness : acceptIbanCandidate "CH934567890123456" = false :=
  c6_heuristic_acceptance.2.2.2.2 "CH934567890123456" (by decide)

/-- C9: the primary exact-21 rule is subsumed by the secondary 19-25
rule: the source's acceptance test agrees with the single predicate
"cleaned token starts with CH, has length 19-25, and its third and
fourth characters are digits" on every input. -/
theorem c9_primary_subsumed (m : String) :
    acceptIbanCandidate m = acceptIbanSpec m := by
  show _ =
    (pyStartsWith (cleanToken m) "CH" && decide (19 ≤ (cleanToken m).length) &&
      decide ((cleanToken m).length ≤ 25) && digitsAt23 (cleanToken m))
  unfold acceptIbanCandidate
  by_cases h1 : pyStartsWith (cleanToken m) "CH" = false
  · rw [if_pos h1, h1]
    simp
  · have h1' : pyStartsWith (cleanToken m) "CH" = true := by
      cases hb : pyStartsWith (cleanToken m) "CH" with
      | false => exact absurd hb h1
      | true => rfl
    rw [if_neg h1, h1']
    by_cases hd : digitsAt23 (cleanToken m) = true
    · by_cases h21 : (cleanToken m).length = 21
      · rw [if_pos (by simp [h21, hd])]
        have h19 : 19 ≤ (cleanToken m).length := by omega
        have h25 : (cleanToken m).length ≤ 25 := by omega
        simp [h19, h25, hd]
      · rw [if_neg (by simp [h21])]
        by_cases h19 : 19 ≤ (cleanToken m).length
        · by_cases h25 : (cleanToken m).length ≤ 25
          · rw [if_pos (by simp [h19, h25, hd])]
            simp [h19, h25, hd]
          · rw [if_neg (by simp [h25])]
            simp [h25]
        · rw [if_neg (by simp [h19])]
          simp [h19]
    · have hd' : digitsAt23 (cleanToken m) = false := by
        cases hb : digitsAt23 (cleanToken m) with
        | false => rfl
        | true => exact absurd hb hd
      rw [if_neg (by simp [hd']), if_neg (by simp [hd'])]
      simp [hd']

/-- C1 (counterexample): with a grammar parser that fails on every text,
the orchestrator loop still terminates at the first "SPC"-prefixed
decode — writing the artifact with only the raw text — instead of
treating the candidate as a non-match and continuing to the second
candidate (which would have produced a different result). -/
theorem c1_counterexample :
    scanLoopP alwaysFailParse "doc" [(some "SPCX", none), (some "SPCGOOD", none)] =
      some (.found "SPCX" .WeChat none "doc_qr.json",
            ⟨"doc_qr.json", .qrJson "SPCX" none⟩) ∧
    scanLoopP alwaysFailParse "doc" [(some "SPCGOOD", none)] =
      some (.found "SPCGOOD" .WeChat none "doc_qr.json",
            ⟨"doc_qr.json", .qrJson "SPCGOOD" none⟩) ∧
    scanLoopP alwaysFailParse "doc" [(some "SPCX", none), (some "SPCGOOD", none)] ≠
      scanLoopP alwaysFailParse "doc" [(some "SPCGOOD", none)] := by decide

/-- C1 (amended): when a decoded text starts with "SPC" but grammar
parsing fails, the artifact is still written with the safely extractable
partial data (the raw text, with no parsed invoice), but the candidate
is treated as a match: the scan terminates immediately with that
artifact and does not continue to the next candidate.  Moreover the
shipped parser never fails on "SPC"-prefixed text, so this branch is
unreachable in the composed program. -/
theorem c1_amended :
    (∀ (parse : String → Except String SwissQRInvoice) (stem t e : String)
        (o : Option String) (rest : List (Option String × Option String)),
        pyStartsWith t "SPC" = true → parse t = .error e →
        scanLoopP parse stem ((some t, o) :: rest) =
          some (.found t .WeChat none (stem ++ "_qr.json"),
                ⟨stem ++ "_qr.json", .qrJson t none⟩)) ∧
    (∀ q : String, pyStartsWith q "SPC" = true → (parse_swiss_qr q).isOk = true) := by
  constructor
  · intro parse stem t e o rest hsw herr
    have ht : ¬ t = "" := pyStartsWith_SPC_ne_empty hsw
    simp only [scanLoopP, decodeChain, if_neg ht]
    rw [if_pos hsw]
    simp only [handleSpcText, herr]
  · intro q hsw
    rw [parse_swiss_qr_ok_of_SPC hsw]
    rfl

theorem c1_witness :
    scanLoopP alwaysFailParse "inv" [(some "SPCBROKEN", none)] =
      some (.found "SPCBROKEN" .WeChat none "inv_qr.json",
            ⟨"inv_qr.json", .qrJson "SPCBROKEN" none⟩) ∧
    (parse_swiss_qr "SPC").isOk = true :=
  ⟨c1_amended.1 alwaysFailParse "inv" "SPCBROKEN" "Failed to parse Swiss QR Code"
      none [] (by decide) rfl,
   c1_amended.2 "SPC" (by decide)⟩

/-- C2 (counterexample): a run with no decodable candidate, heuristic
enabled, and a heuristic hit leaves two artifacts — the "no code found"
error artifact and the heuristic fallback artifact — because the error
artifact is written before the heuristic is consulted and is never
removed. -/
theorem c2_counterexample :
    (scan_qr_code "doc" [] true (some "CH9300762011623852957")).2 =
      [⟨"doc_qr_error.json", .errorNoQr⟩,
       ⟨"doc_qr_fallback.json", .fallbackJson "CH9300762011623852957"⟩] ∧
    ((scan_qr_code "doc" [] true (some "CH9300762011623852957")).2).length = 2 := by
  decide

/-- C2 (amended): the Found branch and the exhausted branches write
exactly one artifact and return it, and a run with no barcode and
heuristic disabled (or heuristic unmatched) produces exactly the error
artifact {stem}_qr_error.json and no fallback artifact; but when the
heuristic succeeds the run leaves two artifacts, the error artifact
followed by the fallback artifact. -/
theorem c2_amended :
    (∀ (stem : String) (cands : List (Option String × Option String))
        (u : Bool) (hres : Option String) (r : ScanResult) (a : Artifact),
        scanLoopP parse_swiss_qr stem cands = some (r, a) →
        scan_qr_code stem cands u hres = (r, [a])) ∧
    (∀ (stem : String) (cands : List (Option String × Option String))
        (hres : Option String),
        scanLoopP parse_swiss_qr stem cands = none →
        scan_qr_code stem cands false hres =
          (.noCode (stem ++ "_qr_error.json"),
           [⟨stem ++ "_qr_error.json", .errorNoQr⟩])) ∧
    (∀ (stem : String) (cands : List (Option String × Option String)),
        scanLoopP parse_swiss_qr stem cands = none →
        scan_qr_code stem cands true none =
          (.noCode (stem ++ "_qr_error.json"),
           [⟨stem ++ "_qr_error.json", .errorNoQr⟩])) ∧
    (∀ (stem : String) (cands : List (Option String × Option String))
        (iban : String),
        scanLoopP parse_swiss_qr stem cands = none →
        scan_qr_code stem cands true (some iban) =
          (.heuristicFound iban (stem ++ "_qr_fallback.json"),
           [⟨stem ++ "_qr_error.json", .errorNoQr⟩,
            ⟨stem ++ "_qr_fallback.json", .fallbackJson iban⟩])) := by
  refine ⟨?_, ?_, ?_, ?_⟩
  · intro stem cands u hres r a h
    unfold scan_qr_code scanQrCodeP
    rw [h]
  · intro stem cands hres h
    unfold scan_qr_code scanQrCodeP
    rw [h]
    rfl
  · intro stem cands h
    unfold scan_qr_code scanQrCodeP
    rw [h]
    rfl
  · intro stem cands iban h
    unfold scan_qr_code scanQrCodeP
    rw [h]
    rfl

theorem c2_witness :
    scan_qr_code "doc" [(some "SPC", none)] false none =
      (.found "SPC" .WeChat (some (parseFields (mkFields "SPC"))) "doc_qr.json",
       [⟨"doc_qr.json", .qrJson "SPC" (some (parseFields (mkFields "SPC")))⟩]) ∧
    scan_qr_code "doc" [] false none =
      (.noCode "doc_qr_error.json", [⟨"doc_qr_error.json", .errorNoQr⟩]) ∧
    scan_qr_code "doc" [] true none =
      (.noCode "doc_qr_error.json", [⟨"doc_qr_error.json", .errorNoQr⟩]) ∧
    scan_qr_code "doc" [] true (some "CH93") =
      (.heuristicFound "CH93" "doc_qr_fallback.json",
       [⟨"doc_qr_error.json", .errorNoQr⟩,
        ⟨"doc_qr_fallback.json", .fallbackJson "CH93"⟩]) :=
  ⟨c2_amended.1 "doc" [(some "SPC", none)] false none _ _ (by decide),
   c2_amended.2.1 "doc" [] none rfl,
   c2_amended.2.2.1 "doc" [] rfl,
   c2_amended.2.2.2 "doc" [] "CH93" rfl⟩

/-! Helper lemmas for the whitespace and line-ending claims. -/

theorem splitNl_ne_nil (l : List Char) : splitNl l ≠ [] := by
  induction l with
  | nil => simp [splitNl]
  | cons c cs ih =>
    by_cases h : c = '\n'
    · subst h
      simp [splitNl]
    · cases hcs : splitNl cs with
      | nil => exact absurd hcs ih
      | cons x xs => simp [splitNl, h, hcs]

theorem splitNl_cons_nl (cs : List Char) : splitNl ('\n' :: cs) = [] :: splitNl cs := by
  simp [splitNl]

theorem splitNl_cons_of_ne {c : Char} (h : c ≠ '\n') (cs : List Char) {x : List Char}
    {xs : List (List Char)} (he : splitNl cs = x :: xs) :
    splitNl (c :: cs) = (c :: x) :: xs := by
  simp [splitNl, h, he]

theorem splitNl_of_free {d : List Char} (h : '\n' ∉ d) : splitNl d = [d] := by
  induction d with
  | nil => rfl
  | cons c cs ih =>
    have hc : c ≠ '\n' := fun hc => h (hc ▸ List.mem_cons_self c cs)
    have hcs : splitNl cs = [cs] := ih fun hm => h (List.mem_cons_of_mem c hm)
    exact splitNl_cons_of_ne hc cs hcs

theorem splitNl_append :
    ∀ (a : List Char) {b : List Char} {Ds T : List (List Char)} {L H : List Char},
      splitNl a = Ds ++ [L] → splitNl b = H :: T →
      splitNl (a ++ b) = Ds ++ (L ++ H) :: T := by
  intro a
  induction a with
  | nil =>
    intro b Ds T L H ha hb
    cases Ds with
    | nil =>
      have hL : L = [] := by simpa [splitNl] using ha.symm
      subst hL
      simpa using hb
    | cons d ds =>
      simp only [splitNl] at ha
      have := congrArg List.length ha
      simp at this
  | cons c a' ih =>
    intro b Ds T L H ha hb
    by_cases hc : c = '\n'
    · subst hc
      rw [splitNl_cons_nl] at ha
      cases Ds with
      | nil =>
        have h2 : splitNl a' = [] := (List.cons.inj (by simpa using ha)).2
        exact absurd h2 (splitNl_ne_nil a')
      | cons d ds =>
        have hd : d = [] := (List.cons.inj ha).1.symm
        have ha' : splitNl a' = ds ++ [L] := (List.cons.inj ha).2
        subst hd
        show splitNl ('\n' :: (a' ++ b)) = _
        rw [splitNl_cons_nl, ih ha' hb]
        rfl
    · cases hx : splitNl a' with
      | nil => exact absurd hx (splitNl_ne_nil a')
      | cons x xs =>
        rw [splitNl_cons_of_ne hc a' hx] at ha
        cases Ds with
        | nil =>
          have hcx : c :: x = L := (List.cons.inj ha).1
          have hxs : xs = [] := by simpa using (List.cons.inj ha).2
          subst hxs
          have ha' : splitNl a' = ([] : List (List Char)) ++ [x] := by simpa using hx
          have hstep := ih ha' hb
          simp only [List.nil_append] at hstep
          show splitNl (c :: (a' ++ b)) = [] ++ ((L ++ H) :: T)
          rw [splitNl_cons_of_ne hc _ hstep, ← hcx]
          simp
        | cons d ds =>
          have hd : d = c :: x := (List.cons.inj ha).1.symm
          have hxs : xs = ds ++ [L] := (List.cons.inj ha).2
          have ha' : splitNl a' = (x :: ds) ++ [L] := by rw [hx, hxs]; rfl
          have hstep := ih ha' hb
          have hcons : splitNl (a' ++ b) = x :: (ds ++ (L ++ H) :: T) := by
            rw [hstep]; rfl
          show splitNl (c :: (a' ++ b)) = _
          rw [splitNl_cons_of_ne hc _ hcons, hd]
          rfl

theorem pyStrip_append_ws {w : List Char} (hw : ∀ c ∈ w, isPyWS c = true)
    (a : List Char) : pyStrip (a ++ w) = pyStrip a := by
  unfold pyStrip stripR
  rw [List.reverse_append, List.dropWhile_append_of_pos (by simpa using hw)]

theorem pyStrip_allWS {w : List Char} (hw : ∀ c ∈ w, isPyWS c = true) :
    pyStrip w = [] := by
  have h0 : pyStrip ([] ++ w) = pyStrip [] := pyStrip_append_ws hw []
  simpa using h0

theorem stripStr_append_cr (d : List Char) : stripStr (d ++ ['\r']) = stripStr d := by
  unfold stripStr
  rw [pyStrip_append_ws (by intro c hc; simp at hc; subst hc; decide) d]

theorem splitNl_allWS {w : List Char} (hw : ∀ c ∈ w, isPyWS c = true) :
    ∀ s ∈ splitNl w, ∀ c ∈ s, isPyWS c = true := by
  induction w with
  | nil =>
    intro s hs c hc
    simp [splitNl] at hs
    subst hs
    cases hc
  | cons a w' ih =>
    have ha : isPyWS a = true := hw a (List.mem_cons_self a w')
    have hw' : ∀ c ∈ w', isPyWS c = true := fun c hc => hw c (List.mem_cons_of_mem a hc)
    by_cases hnl : a = '\n'
    · subst hnl
      intro s hs c hc
      rw [splitNl_cons_nl] at hs
      rcases List.mem_cons.1 hs with rfl | hs'
      · cases hc
      · exact ih hw' s hs' c hc
    · cases hx : splitNl w' with
      | nil => exact absurd hx (splitNl_ne_nil w')
      | cons x xs =>
        intro s hs c hc
        rw [splitNl_cons_of_ne hnl w' hx] at hs
        rcases List.mem_cons.1 hs with rfl | hs'
        · rcases List.mem_cons.1 hc with rfl | hc'
          · exact ha
          · exact ih hw' x (hx ▸ List.mem_cons_self x xs) c hc'
        · exact ih hw' s (hx ▸ List.mem_cons_of_mem x hs') c hc

theorem getD_replicate_empty (k j : Nat) :
    (List.replicate k ("" : String)).getD j "" = "" := by
  induction k generalizing j with
  | zero => simp
  | succ n ih =>
    cases j with
    | zero => simp [List.replicate_succ]
    | succ m => simp [List.replicate_succ, ih]

theorem getD_append_replicate_empty (A : List String) (k i : Nat) :
    (A ++ List.replicate k "").getD i "" = A.getD i "" := by
  rcases Nat.lt_or_ge i A.length with h | h
  · exact List.getD_append _ _ _ _ h
  · rw [List.getD_append_right _ _ _ _ h, getD_replicate_empty,
      List.getD_eq_default _ _ h]

theorem mapStrip_splitNl_append_ws {w : List Char} (hw : ∀ c ∈ w, isPyWS c = true)
    (y : List Char) (i : Nat) :
    ((splitNl (y ++ w)).map stripStr).getD i "" =
      ((splitNl y).map stripStr).getD i "" := by
  cases hb : splitNl w with
  | nil => exact absurd hb (splitNl_ne_nil w)
  | cons H T =>
    rcases List.eq_nil_or_concat (splitNl y) with hy | ⟨Ds, L, hy⟩
    · exact absurd hy (splitNl_ne_nil y)
    · have hy' : splitNl y = Ds ++ [L] := by simpa [List.concat_eq_append] using hy
      have happ := splitNl_append y hy' hb
      have hH : ∀ c ∈ H, isPyWS c = true := fun c hc =>
        splitNl_allWS hw H (hb ▸ List.mem_cons_self H T) c hc
      have hLH : stripStr (L ++ H) = stripStr L := by
        unfold stripStr
        rw [pyStrip_append_ws hH]
      have hT : (T.map stripStr) = List.replicate T.length "" := by
        rw [List.eq_replicate_iff]
        refine ⟨by simp, ?_⟩
        intro b hbm
        rcases List.mem_map.1 hbm with ⟨s, hs, rfl⟩
        have hsw : ∀ c ∈ s, isPyWS c = true := fun c hc =>
          splitNl_allWS hw s (hb ▸ List.mem_cons_of_mem H hs) c hc
        unfold stripStr
        rw [pyStrip_allWS hsw]
      calc ((splitNl (y ++ w)).map stripStr).getD i ""
          = ((Ds ++ (L ++ H) :: T).map stripStr).getD i "" := by rw [happ]
        _ = ((Ds.map stripStr ++ [stripStr (L ++ H)]) ++ T.map stripStr).getD i "" := by
            simp
        _ = ((Ds.map stripStr ++ [stripStr L]) ++ List.replicate T.length "").getD i "" := by
            rw [hLH, hT]
        _ = (Ds.map stripStr ++ [stripStr L]).getD i "" :=
            getD_append_replicate_empty _ _ _
        _ = ((Ds ++ [L]).map stripStr).getD i "" := by simp
        _ = ((splitNl y).map stripStr).getD i "" := by rw [hy']

theorem stripR_append_eq (x : List Char) :
    stripR x ++ (x.reverse.takeWhile isPyWS).reverse = x := by
  unfold stripR
  rw [← List.reverse_append, List.takeWhile_append_dropWhile, List.reverse_reverse]

theorem allWS_wsSuffix (x : List Char) :
    ∀ c ∈ (x.reverse.takeWhile isPyWS).reverse, isPyWS c = true := by
  intro c hc
  rw [List.mem_reverse] at hc
  exact List.mem_takeWhile_imp hc

theorem data_of_SPC {q : String} (h : pyStartsWith q "SPC" = true) :
    ∃ rest, q.data = 'S' :: 'P' :: 'C' :: rest := by
  have h' : List.isPrefixOf ['S', 'P', 'C'] q.data = true := h
  cases hq : q.data with
  | nil =>
    rw [hq] at h'
    simp [List.isPrefixOf] at h'
  | cons a t1 =>
    cases t1 with
    | nil =>
      rw [hq] at h'
      simp [List.isPrefixOf] at h'
    | cons b t2 =>
      cases t2 with
      | nil =>
        rw [hq] at h'
        simp [List.isPrefixOf] at h'
      | cons c t3 =>
        rw [hq] at h'
        simp [List.isPrefixOf] at h'
        obtain ⟨h1, h2, h3⟩ := h'
        subst h1
        subst h2
        subst h3
        exact ⟨t3, rfl⟩

theorem pyStrip_of_head_S {x : List Char} {rest : List Char}
    (hx : x = 'S' :: 'P' :: 'C' :: rest) : pyStrip x = stripR x := by
  have hdec := stripR_append_eq x
  cases hs : stripR x with
  | nil =>
    rw [hs, List.nil_append] at hdec
    have hS : isPyWS 'S' = true := by
      apply allWS_wsSuffix x 'S'
      rw [hdec, hx]
      exact List.mem_cons_self _ _
    exact absurd hS (by decide)
  | cons a u =>
    rw [hs, List.cons_append, hx] at hdec
    have ha : a = 'S' := (List.cons.inj hdec).1
    unfold pyStrip stripL
    rw [hs, ha, List.dropWhile_cons_of_neg (by decide)]

theorem mkFields_getD_eq {q : String} (h : pyStartsWith q "SPC" = true) (i : Nat) :
    (mkFields q).getD i "" = ((splitNl q.data).map stripStr).getD i "" := by
  obtain ⟨rest, hx⟩ := data_of_SPC h
  have hps : pyStrip q.data = stripR q.data := pyStrip_of_head_S hx
  have hdec := stripR_append_eq q.data
  simp only [mkFields]
  rw [getD_append_replicate_empty, hps]
  conv_rhs => rw [← hdec]
  rw [mapStrip_splitNl_append_ws (allWS_wsSuffix q.data) (stripR q.data) i]

theorem isPrefixOf_append_cons (p : List Char) :
    ∀ (l : List Char) {c₁ c₂ : Char} (r₁ r₂ : List Char), c₁ ∉ p → c₂ ∉ p →
      p.isPrefixOf (l ++ c₁ :: r₁) = p.isPrefixOf (l ++ c₂ :: r₂) := by
  induction p with
  | nil =>
    intro l c₁ c₂ r₁ r₂ h₁ h₂
    simp
  | cons x p' ih =>
    intro l c₁ c₂ r₁ r₂ h₁ h₂
    cases l with
    | nil =>
      simp only [List.nil_append, List.isPrefixOf_cons₂]
      have hx1 : (x == c₁) = false := by
        rw [beq_eq_false_iff_ne]
        intro he
        exact h₁ (he ▸ List.mem_cons_self x p')
      have hx2 : (x == c₂) = false := by
        rw [beq_eq_false_iff_ne]
        intro he
        exact h₂ (he ▸ List.mem_cons_self x p')
      rw [hx1, hx2]
      simp
    | cons d l' =>
      simp only [List.cons_append, List.isPrefixOf_cons₂]
      cases hxd : (x == d) with
      | false => simp
      | true =>
        simp only [Bool.true_and]
        exact ih l' r₁ r₂ (fun hm => h₁ (List.mem_cons_of_mem x hm))
          (fun hm => h₂ (List.mem_cons_of_mem x hm))

theorem joinSep_cons_cons (sep d d' : List Char) (t : List (List Char)) :
    joinSep sep (d :: d' :: t) = d ++ sep ++ joinSep sep (d' :: t) := rfl

theorem crAug_cons_cons (d d' : List Char) (t : List (List Char)) :
    crAug (d :: d' :: t) = (d ++ ['\r']) :: crAug (d' :: t) := rfl

theorem joinCRLF_eq_crAug (ds : List (List Char)) :
    joinSep ['\r', '\n'] ds = joinSep ['\n'] (crAug ds) := by
  induction ds with
  | nil => rfl
  | cons d t ih =>
    cases t with
    | nil => rfl
    | cons d' t' =>
      obtain ⟨e, es, he⟩ : ∃ e es, crAug (d' :: t') = e :: es := by
        cases t' with
        | nil => exact ⟨d', [], rfl⟩
        | cons b t'' => exact ⟨d' ++ ['\r'], crAug (b :: t''), rfl⟩
      rw [joinSep_cons_cons, ih, crAug_cons_cons, he, joinSep_cons_cons]
      simp

theorem crAug_free {ds : List (List Char)} (hf : ∀ d ∈ ds, '\n' ∉ d) :
    ∀ d ∈ crAug ds, '\n' ∉ d := by
  induction ds with
  | nil =>
    intro d hd
    cases hd
  | cons a t ih =>
    cases t with
    | nil =>
      intro d hd
      simp only [crAug] at hd
      rcases List.mem_cons.1 hd with rfl | hd'
      · exact hf _ (List.mem_cons_self _ _)
      · cases hd'
    | cons b t' =>
      intro d hd
      rw [crAug_cons_cons] at hd
      rcases List.mem_cons.1 hd with rfl | hd'
      · intro hmem
        rcases List.mem_append.1 hmem with h1 | h1
        · exact hf a (List.mem_cons_self _ _) h1
        · simp at h1
      · exact ih (fun x hx => hf x (List.mem_cons_of_mem a hx)) d hd'

theorem splitNl_joinLF {ds : List (List Char)} (hne : ds ≠ [])
    (hfree : ∀ d ∈ ds, '\n' ∉ d) : splitNl (joinSep ['\n'] ds) = ds := by
  induction ds with
  | nil => exact absurd rfl hne
  | cons d t ih =>
    cases t with
    | nil => exact splitNl_of_free (hfree d (List.mem_cons_self d []))
    | cons d' t' =>
      rw [joinSep_cons_cons]
      have hrec : splitNl (joinSep ['\n'] (d' :: t')) = d' :: t' :=
        ih (by simp) (fun x hx => hfree x (List.mem_cons_of_mem d hx))
      have hx : splitNl ('\n' :: joinSep ['\n'] (d' :: t')) = [] :: d' :: t' := by
        rw [splitNl_cons_nl, hrec]
      have hd : splitNl d = ([] : List (List Char)) ++ [d] := by
        rw [splitNl_of_free (hfree d (List.mem_cons_self _ _))]
        rfl
      have hstep := splitNl_append d hd hx
      have hshape : (d ++ ['\n']) ++ joinSep ['\n'] (d' :: t') =
          d ++ ('\n' :: joinSep ['\n'] (d' :: t')) := by simp
      rw [hshape]
      simpa using hstep

theorem mapStrip_crAug (ds : List (List Char)) :
    (crAug ds).map stripStr = ds.map stripStr := by
  induction ds with
  | nil => rfl
  | cons a t ih =>
    cases t with
    | nil => rfl
    | cons b t' =>
      rw [crAug_cons_cons, List.map_cons, stripStr_append_cr, ih, List.map_cons]
      rfl

theorem startsWith_crlf_eq (lines : List String) :
    pyStartsWith (joinCRLF lines) "SPC" = pyStartsWith (joinLF lines) "SPC" := by
  cases lines with
  | nil => rfl
  | cons l t =>
    cases t with
    | nil => rfl
    | cons l' t' =>
      show List.isPrefixOf ['S', 'P', 'C']
          (joinSep ['\r', '\n'] (l.data :: l'.data :: t'.map String.data)) =
        List.isPrefixOf ['S', 'P', 'C']
          (joinSep ['\n'] (l.data :: l'.data :: t'.map String.data))
      rw [joinSep_cons_cons, joinSep_cons_cons]
      have e1 : (l.data ++ ['\r', '\n']) ++
          joinSep ['\r', '\n'] (l'.data :: t'.map String.data) =
          l.data ++ '\r' :: ('\n' ::
            joinSep ['\r', '\n'] (l'.data :: t'.map String.data)) := by simp
      have e2 : (l.data ++ ['\n']) ++ joinSep ['\n'] (l'.data :: t'.map String.data) =
          l.data ++ '\n' :: joinSep ['\n'] (l'.data :: t'.map String.data) := by simp
      rw [e1, e2]
      exact isPrefixOf_append_cons ['S', 'P', 'C'] l.data _ _ (by decide) (by decide)

theorem parse_address_getD_congr {fs gs : List String}
    (h : ∀ i, fs.getD i "" = gs.getD i "") (st : Nat) (hf : st < fs.length)
    (hg : st < gs.length) : parse_address fs st = parse_address gs st := by
  unfold parse_address
  rw [if_neg (show ¬ st ≥ fs.length by omega),
    if_neg (show ¬ st ≥ gs.length by omega)]
  simp only [h]

theorem parseFields_getD_congr {fs gs : List String} (hlf : 35 ≤ fs.length)
    (hlg : 35 ≤ gs.length) (h : ∀ i, fs.getD i "" = gs.getD i "") :
    parseFields fs = parseFields gs := by
  unfold parseFields
  rw [parse_address_getD_congr h 4 (by omega) (by omega),
    parse_address_getD_congr h 11 (by omega) (by omega),
    parse_address_getD_congr h 20 (by omega) (by omega),
    if_pos (show 27 < fs.length by omega), if_pos (show 27 < gs.length by omega),
    if_pos (show 28 < fs.length by omega), if_pos (show 28 < gs.length by omega),
    if_pos (show 29 < fs.length by omega), if_pos (show 29 < gs.length by omega),
    if_pos (show 30 < fs.length by omega), if_pos (show 30 < gs.length by omega),
    if_pos (show 31 < fs.length by omega), if_pos (show 31 < gs.length by omega),
    if_pos (show 32 < fs.length by omega), if_pos (show 32 < gs.length by omega)]
  simp only [h]

theorem noEdge_empty : NoEdgeWS "" := by
  constructor <;> intro c hc <;> cases hc

theorem noEdge_of_all {s : String} (h : ∀ c ∈ s.data, isPyWS c = false) :
    NoEdgeWS s :=
  ⟨fun c hc => h c (List.mem_of_mem_head? hc),
   fun c hc => h c (List.mem_of_mem_getLast? hc)⟩

theorem head_not_of_dropWhile (p : Char → Bool) (l : List Char) :
    ∀ c ∈ (l.dropWhile p).head?, p c = false := by
  intro c hc
  have h := List.head?_dropWhile_not p l
  rw [Option.mem_def] at hc
  rw [hc] at h
  exact h

theorem getLast_dropWhile_of_ne_nil (p : Char → Bool) (l : List Char)
    (hne : l.dropWhile p ≠ []) : (l.dropWhile p).getLast? = l.getLast? := by
  conv_rhs => rw [← List.takeWhile_append_dropWhile p l]
  rw [List.getLast?_append]
  cases hgl : (l.dropWhile p).getLast? with
  | some x => rfl
  | none => exact absurd (List.getLast?_eq_none_iff.1 hgl) hne

theorem noEdge_stripStr (l : List Char) : NoEdgeWS (stripStr l) := by
  constructor
  · intro c hc
    exact head_not_of_dropWhile isPyWS (stripR l) c hc
  · intro c hc
    by_cases hne : pyStrip l = []
    · rw [Option.mem_def] at hc
      rw [show (stripStr l).data = pyStrip l from rfl, hne] at hc
      cases hc
    · have h1 : (pyStrip l).getLast? = (stripR l).getLast? :=
        getLast_dropWhile_of_ne_nil isPyWS (stripR l) hne
      have h2 : (stripR l).getLast? = (l.reverse.dropWhile isPyWS).head? := by
        unfold stripR
        rw [List.getLast?_reverse]
      have hc' : c ∈ (l.reverse.dropWhile isPyWS).head? := by
        rw [Option.mem_def] at hc ⊢
        rw [← h2, ← h1]
        exact hc
      exact head_not_of_dropWhile isPyWS l.reverse c hc'

theorem noEdge_mkFields {q s : String} (hs : s ∈ mkFields q) : NoEdgeWS s := by
  simp only [mkFields] at hs
  rcases List.mem_append.1 hs with h1 | h2
  · rcases List.mem_map.1 h1 with ⟨l, -, rfl⟩
    exact noEdge_stripStr l
  · rw [List.eq_of_mem_replicate h2]
    exact noEdge_empty

theorem noEdge_getD {fs : List String} (h : ∀ s ∈ fs, NoEdgeWS s) (i : Nat) :
    NoEdgeWS (fs.getD i "") := by
  induction fs generalizing i with
  | nil => exact noEdge_empty
  | cons a t ih =>
    cases i with
    | zero => exact h a (List.mem_cons_self a t)
    | succ n => exact ih (fun s hs => h s (List.mem_cons_of_mem a hs)) n

theorem addr_trimmed_of_fields {fs : List String} (h : ∀ s ∈ fs, NoEdgeWS s)
    (st : Nat) : ∀ a, (parse_address fs st).1 = some a → AddrTrimmed a := by
  intro a ha
  simp only [parse_address] at ha
  split_ifs at ha with h1 h2 h3 h4
  · obtain rfl := Option.some.inj ha
    exact ⟨noEdge_getD h st, noEdge_getD h _, noEdge_getD h _, noEdge_getD h _,
      noEdge_getD h _, noEdge_getD h _, noEdge_getD h _⟩
  · obtain rfl := Option.some.inj ha
    exact ⟨noEdge_getD h st, noEdge_getD h _, noEdge_getD h _, noEdge_getD h _,
      noEdge_empty, noEdge_empty, noEdge_getD h _⟩

theorem invTrimmed_parseFields {fs : List String} (h : ∀ s ∈ fs, NoEdgeWS s) :
    InvTrimmed (parseFields fs) := by
  refine ⟨noEdge_getD h 0, noEdge_getD h 1, noEdge_getD h 2, noEdge_getD h 3,
    ?_, ?_, ?_, ?_, ?_, ?_, ?_, ?_, ?_, ?_, ?_⟩
  · intro a ha
    exact addr_trimmed_of_fields h 4 a (Option.mem_def.1 ha)
  · intro a ha
    exact addr_trimmed_of_fields h 11 a (Option.mem_def.1 ha)
  · intro s hs
    have hs' : (if fs.getD 18 "" = "" then none else some (fs.getD 18 "")) = some s :=
      Option.mem_def.1 hs
    by_cases h18 : fs.getD 18 "" = ""
    · rw [if_pos h18] at hs'
      cases hs'
    · rw [if_neg h18] at hs'
      obtain rfl := Option.some.inj hs'
      exact noEdge_getD h 18
  · show NoEdgeWS (if fs.getD 19 "" = "" then "CHF" else fs.getD 19 "")
    by_cases h19 : fs.getD 19 "" = ""
    · rw [if_pos h19]
      exact noEdge_of_all (by decide)
    · rw [if_neg h19]
      exact noEdge_getD h 19
  · intro a ha
    exact addr_trimmed_of_fields h 20 a (Option.mem_def.1 ha)
  · show NoEdgeWS (if 27 < fs.length then fs.getD 27 "" else "")
    by_cases h27 : 27 < fs.length
    · rw [if_pos h27]
      exact noEdge_getD h 27
    · rw [if_neg h27]
      exact noEdge_empty
  · show NoEdgeWS (if 28 < fs.length then fs.getD 28 "" else "")
    by_cases h28 : 28 < fs.length
    · rw [if_pos h28]
      exact noEdge_getD h 28
    · rw [if_neg h28]
      exact noEdge_empty
  · show NoEdgeWS (if 29 < fs.length then fs.getD 29 "" else "")
    by_cases h29 : 29 < fs.length
    · rw [if_pos h29]
      exact noEdge_getD h 29
    · rw [if_neg h29]
      exact noEdge_empty
  · show NoEdgeWS (if 30 < fs.length then fs.getD 30 "" else "EPD")
    by_cases h30 : 30 < fs.length
    · rw [if_pos h30]
      exact noEdge_getD h 30
    · rw [if_neg h30]
      exact noEdge_of_all (by decide)
  · show NoEdgeWS (if 31 < fs.length then fs.getD 31 "" else "")
    by_cases h31 : 31 < fs.length
    · rw [if_pos h31]
      exact noEdge_getD h 31
    · rw [if_neg h31]
      exact noEdge_empty
  · show NoEdgeWS (if 32 < fs.length then fs.getD 32 "" else "")
    by_cases h32 : 32 < fs.length
    · rw [if_pos h32]
      exact noEdge_getD h 32
    · rw [if_neg h32]
      exact noEdge_empty

/-- C10: parse_swiss_qr strips the whole payload and every line before
field extraction, so every string field of the returned record
(including address fields) carries no leading or trailing whitespace;
and two payloads that differ only in CRLF versus LF line endings parse
to identical records. -/
theorem c10_strip_and_crlf :
    (∀ (q : String) (inv : SwissQRInvoice),
        parse_swiss_qr q = .ok inv → InvTrimmed inv) ∧
    (∀ lines : List String,
        (∀ l ∈ lines, ∀ c ∈ l.data, c ≠ '\n' ∧ c ≠ '\r') →
        parse_swiss_qr (joinCRLF lines) = parse_swiss_qr (joinLF lines)) := by
  constructor
  · intro q inv hok
    have hinv : inv = parseFields (mkFields q) := by
      unfold parse_swiss_qr at hok
      split at hok
      · cases hok
      · exact (Except.ok.inj hok).symm
    subst hinv
    exact invTrimmed_parseFields fun s hs => noEdge_mkFields hs
  · intro lines hfree
    cases lines with
    | nil => rfl
    | cons l0 t0 =>
      cases t0 with
      | nil => rfl
      | cons l1 t1 =>
        have hsw := startsWith_crlf_eq (l0 :: l1 :: t1)
        have hds : ∀ d ∈ (l0 :: l1 :: t1).map String.data, '\n' ∉ d := by
          intro d hd
          rcases List.mem_map.1 hd with ⟨l, hl, rfl⟩
          intro hc
          exact (hfree l hl '\n' hc).1 rfl
        by_cases hS : pyStartsWith (joinLF (l0 :: l1 :: t1)) "SPC" = true
        · have hS' : pyStartsWith (joinCRLF (l0 :: l1 :: t1)) "SPC" = true := by
            rw [hsw]
            exact hS
          rw [parse_swiss_qr_ok_of_SPC hS', parse_swiss_qr_ok_of_SPC hS]
          congr 1
          apply parseFields_getD_congr (mkFields_length _) (mkFields_length _)
          intro i
          rw [mkFields_getD_eq hS' i, mkFields_getD_eq hS i]
          have h1 : (joinCRLF (l0 :: l1 :: t1)).data =
              joinSep ['\n'] (crAug ((l0 :: l1 :: t1).map String.data)) := by
            show joinSep ['\r', '\n'] ((l0 :: l1 :: t1).map String.data) = _
            exact joinCRLF_eq_crAug _
          have h2 : (joinLF (l0 :: l1 :: t1)).data =
              joinSep ['\n'] ((l0 :: l1 :: t1).map String.data) := rfl
          have hcrne : crAug ((l0 :: l1 :: t1).map String.data) ≠ [] := by
            show crAug (l0.data :: l1.data :: t1.map String.data) ≠ []
            rw [crAug_cons_cons]
            exact List.cons_ne_nil _ _
          rw [h1, h2, splitNl_joinLF hcrne (crAug_free hds),
            splitNl_joinLF (by simp) hds, mapStrip_crAug]
        · have hSf : pyStartsWith (joinLF (l0 :: l1 :: t1)) "SPC" = false := by
            cases hb : pyStartsWith (joinLF (l0 :: l1 :: t1)) "SPC"
            · rfl
            · exact absurd hb hS
          have hSf' : pyStartsWith (joinCRLF (l0 :: l1 :: t1)) "SPC" = false := by
            rw [hsw]
            exact hSf
          unfold parse_swiss_qr
          rw [if_pos (Or.inr hSf'), if_pos (Or.inr hSf)]

theorem c10_witness :
    InvTrimmed (parseFields (mkFields "SPC")) ∧
    parse_swiss_qr (joinCRLF ["SPC", "0200"]) = parse_swiss_qr (joinLF ["SPC", "0200"]) :=
  ⟨c10_strip_and_crlf.1 "SPC" (parseFields (mkFields "SPC")) (by decide),
   c10_strip_and_crlf.2 ["SPC", "0200"] (by decide)⟩
